import Mathlib

/-!
Verification of the decimal-string conversion core of `paket-core/util`
(`src/util/conversion.py` and `src/util/stellar_units.py`).

The Python code is shallowly embedded: Python strings become `List Char`,
Python `str.split` becomes `pySplit`, negative-index slices `s[:-d]` and
`s[-d:]` become `pySliceToNeg` / `pySliceFromNeg` (faithfully reproducing the
Python quirk that `s[:-0] = ""` and `s[-0:] = s`), Python `int(...)` on the
digit strings produced by the code becomes `pyInt`, and `str(int)` becomes
`natToChars`.  A value passed to a conversion function is a `PyVal` (an
integer, a boolean, a string, or anything else), since the code dispatches on
`isinstance` checks.  Fallible code returns `Except PyErr`.
-/

namespace Paket

deriving instance DecidableEq for Except

/-- The Python exceptions that the embedded code can raise. -/
inductive PyErr where
  | typeError
  | valueError
  | indexError
  | zeroDivisionError
deriving DecidableEq

/-- A Python value passed as the `amount` argument of the conversion
functions: a non-negative integer, a boolean, a string, or a value of any
other type.  The code accepts strings and non-boolean integers and raises
`TypeError` otherwise. -/
inductive PyVal where
  | vint (n : Nat)
  | vbool (b : Bool)
  | vstr (s : List Char)
  | vother
deriving DecidableEq

/-- The ten decimal digit characters, i.e. exactly the characters accepted by
Python `int(...)` in the digit strings this code builds. -/
def isDigitChar (c : Char) : Bool :=
  c == '0' || c == '1' || c == '2' || c == '3' || c == '4' ||
  c == '5' || c == '6' || c == '7' || c == '8' || c == '9'

/-- Numeric value of a digit character. -/
def digitVal (c : Char) : Nat := c.toNat - 48

/-- The decimal digit character for a value below ten. -/
def digitChar (d : Nat) : Char :=
  match d with
  | 0 => '0'
  | 1 => '1'
  | 2 => '2'
  | 3 => '3'
  | 4 => '4'
  | 5 => '5'
  | 6 => '6'
  | 7 => '7'
  | 8 => '8'
  | 9 => '9'
  | _ => '?'

/-- Every character of the string is a decimal digit. -/
def allDigits (s : List Char) : Bool := s.all isDigitChar

/-- Value of a decimal digit string, as computed by Python `int(...)`. -/
def charsToNat (s : List Char) : Nat := s.foldl (fun a c => 10 * a + digitVal c) 0

/-- Fuel-driven decimal printing loop; with fuel at least `n` it produces the
decimal digits of `n` (most significant first), and `[]` for `n = 0`. -/
def natToCharsLoop : Nat → Nat → List Char
  | 0, _ => []
  | fuel + 1, n =>
    if n = 0 then [] else natToCharsLoop fuel (n / 10) ++ [digitChar (n % 10)]

/-- Python `str(n)` for a non-negative integer `n`. -/
def natToChars (n : Nat) : List Char := if n = 0 then ['0'] else natToCharsLoop n n

/-- Python `str.split(sep)`. -/
def pySplit (sep : Char) : List Char → List (List Char)
  | [] => [[]]
  | c :: rest =>
    if c = sep then [] :: pySplit sep rest
    else
      match pySplit sep rest with
      | [] => [[c]]
      | p :: ps => (c :: p) :: ps

/-- Python slice `s[:-d]` for a non-negative `d`; for `d = 0` this is the
empty string (since `s[:0] = ""`), not the whole string. -/
def pySliceToNeg (s : List Char) (d : Nat) : List Char :=
  if d = 0 then [] else s.take (s.length - d)

/-- Python slice `s[-d:]` for a non-negative `d`; for `d = 0` this is the
whole string (since `s[0:] = s`). -/
def pySliceFromNeg (s : List Char) (d : Nat) : List Char :=
  if d = 0 then s else s.drop (s.length - d)

/-- Python `s.rstrip('0')`. -/
def rstripZeros (s : List Char) : List Char :=
  (s.reverse.dropWhile (fun c => c == '0')).reverse

/-- Python `s.rstrip('0') or '0'`, the fractional-part normalisation used by
`indivisible_to_divisible`. -/
def stripOr0 (s : List Char) : List Char :=
  let striped := rstripZeros s
  if striped = [] then ['0'] else striped

/-- Python `"{0:<0w}".format(f)`: right-pad `f` with zero characters to width
`d` (no truncation when `f` is already long enough). -/
def padTo (f : List Char) (d : Nat) : List Char :=
  f ++ List.replicate (d - f.length) '0'

/-- Python `int(s)` on the strings handled here: the value of a non-empty
all-digit string, a `ValueError` otherwise. -/
def pyInt (s : List Char) : Except PyErr Nat :=
  if s ≠ [] ∧ allDigits s = true then .ok (charsToNat s) else .error .valueError

/-- Python `int(s or '0')`: an empty string is replaced by `"0"` before the
conversion, as in `divisible_to_indivisible`. -/
def pyIntOr0 (s : List Char) : Except PyErr Nat :=
  pyInt (if s = [] then ['0'] else s)

/-- Rounding to the nearest integer with ties to even, on the exact rational
`n / den`.  This models Python `round(float(s))` for the decimal strings the
code produces; the IEEE-754 detour through `float` is exact at these
magnitudes and tie positions, and the `-- integer part of result` comment in
the source documents round-to-nearest as the intent. -/
def roundHalfEven (n den : Nat) : Nat :=
  let q := n / den
  let r := n % den
  if 2 * r < den then q
  else if den < 2 * r then q + 1
  else if q % 2 = 0 then q else q + 1

/-- Python `round(float(s))` for a decimal string `s` (an optional dot with
digit parts around it). -/
def pyRoundFloat (s : List Char) : Except PyErr Nat :=
  match pySplit '.' s with
  | [i, f] =>
    if allDigits (i ++ f) = true then
      .ok (roundHalfEven (charsToNat (i ++ f)) (10 ^ f.length))
    else .error .valueError
  | [i] =>
    if i ≠ [] ∧ allDigits i = true then .ok (charsToNat i) else .error .valueError
  | _ => .error .valueError

namespace conversion

/-- Number of decimals of one ether in wei, from `util/conversion.py`. -/
def ETH_DECIMALS : Nat := 18

/-- Number of decimals of one bitcoin in satoshi, from `util/conversion.py`. -/
def BTC_DECIMALS : Nat := 8

/-- Number of decimals of one stellar unit in stroops, from
`util/conversion.py`. -/
def STELLAR_DECIMALS : Nat := 7

/-- The body of `divisible_to_indivisible` after the integer and fractional
parts have been determined: format the two parts into one digit string
(with the special branch for an integer part equal to `"0"`), replace an
empty result with `"0"`, and convert with `int(...)`. -/
def d2iBuild (integer_part fractional_part : List Char) (decimals : Nat) :
    Except PyErr Nat :=
  pyIntOr0
    (if integer_part ≠ ['0'] then
      integer_part ++ padTo fractional_part decimals
    else
      fractional_part.dropWhile (fun c => c == '0') ++
        List.replicate
          (decimals
            - (fractional_part.length
              - (fractional_part.dropWhile (fun c => c == '0')).length)
            - (fractional_part.dropWhile (fun c => c == '0')).length) '0')

/-- `divisible_to_indivisible` on an already-stringified amount: split on the
decimal point when present (a split into more than two pieces is the Python
`ValueError` of the tuple unpacking), truncate the fractional part to
`decimals` digits, else use `decimals` zero characters, then build. -/
def d2iCore (s : List Char) (decimals : Nat) : Except PyErr Nat :=
  if '.' ∈ s then
    match pySplit '.' s with
    | [integer_part, fractional_part] =>
      d2iBuild integer_part (fractional_part.take decimals) decimals
    | _ => .error .valueError
  else
    d2iBuild s (List.replicate decimals '0') decimals

/-- `util.conversion.divisible_to_indivisible(amount, decimals)`. -/
def divisible_to_indivisible (amount : PyVal) (decimals : Nat) : Except PyErr Nat :=
  match amount with
  | .vstr s => d2iCore s decimals
  | .vint n => d2iCore (natToChars n) decimals
  | _ => .error .typeError

/-- `indivisible_to_divisible` on an already-stringified amount: insert the
decimal point `decimals` characters from the right using Python slices (for
`decimals = 0` the slices make the integer part empty and the fractional part
the whole string), or prefix `"0."` after left-padding when the string is not
longer than `decimals`; then strip trailing zeros of the fractional part,
replacing an emptied fractional part with `"0"`. -/
def i2dCore (s : List Char) (decimals : Nat) : Except PyErr (List Char) :=
  let amount :=
    if decimals < s.length then
      pySliceToNeg s decimals ++ '.' :: pySliceFromNeg s decimals
    else
      '0' :: '.' :: (List.replicate (decimals - s.length) '0' ++ s)
  match pySplit '.' amount with
  | [integer_part, fractional_part] =>
    .ok (integer_part ++ '.' :: stripOr0 fractional_part)
  | _ => .error .valueError

/-- `util.conversion.indivisible_to_divisible(amount, decimals)`. -/
def indivisible_to_divisible (amount : PyVal) (decimals : Nat) :
    Except PyErr (List Char) :=
  match amount with
  | .vstr s => i2dCore s decimals
  | .vint n => i2dCore (natToChars n) decimals
  | _ => .error .typeError

/-- `util.conversion.stroops_to_units`. -/
def stroops_to_units (amount : PyVal) : Except PyErr (List Char) :=
  indivisible_to_divisible amount STELLAR_DECIMALS

/-- `util.conversion.units_to_stroops`. -/
def units_to_stroops (amount : PyVal) : Except PyErr Nat :=
  divisible_to_indivisible amount STELLAR_DECIMALS

/-- `util.conversion.wei_to_eth`. -/
def wei_to_eth (amount : PyVal) : Except PyErr (List Char) :=
  indivisible_to_divisible amount ETH_DECIMALS

/-- `util.conversion.eth_to_wei`. -/
def eth_to_wei (amount : PyVal) : Except PyErr Nat :=
  divisible_to_indivisible amount ETH_DECIMALS

/-- `util.conversion.satoshi_to_btc`. -/
def satoshi_to_btc (amount : PyVal) : Except PyErr (List Char) :=
  indivisible_to_divisible amount BTC_DECIMALS

/-- `util.conversion.btc_to_satoshi`. -/
def btc_to_satoshi (amount : PyVal) : Except PyErr Nat :=
  divisible_to_indivisible amount BTC_DECIMALS

/-- `len(price.split('.')[1])` guarded by `try ... except IndexError` with a
default of `0`, as in `euro_cents_to_xlm_stroops` / `euro_cents_to_bul_stroops`. -/
def priceDecimals (price : List Char) : Nat :=
  match (pySplit '.' price)[1]? with
  | some f => f.length
  | none => 0

/-- `util.conversion.currency_to_euro_cents(amount, eur_price, decimals)`.
The unguarded `eur_price.split('.')[1]` raises `IndexError` when the price
has no decimal point.  The exponent `price_decimals + decimals - 2` is
truncated `Nat` subtraction; the embedding is faithful when
`price_decimals + decimals ≥ 2`, which holds for every asset the module
handles (all decimals constants are at least 7). -/
def currency_to_euro_cents (amount : Nat) (eur_price : List Char) (decimals : Nat) :
    Except PyErr Nat :=
  match (pySplit '.' eur_price)[1]? with
  | none => .error .indexError
  | some f =>
    (divisible_to_indivisible (.vstr eur_price) f.length).bind fun fictitious_units_price =>
      (indivisible_to_divisible (.vint (fictitious_units_price * amount))
        (f.length + decimals - 2)).bind pyRoundFloat

/-- `util.conversion.btc_to_euro_cents`. -/
def btc_to_euro_cents (amount : Nat) (eur_price : List Char) : Except PyErr Nat :=
  currency_to_euro_cents amount eur_price BTC_DECIMALS

/-- `util.conversion.eth_to_euro_cents`. -/
def eth_to_euro_cents (amount : Nat) (eur_price : List Char) : Except PyErr Nat :=
  currency_to_euro_cents amount eur_price ETH_DECIMALS

/-- `util.conversion.xlm_to_euro_cents`. -/
def xlm_to_euro_cents (amount : Nat) (eur_price : List Char) : Except PyErr Nat :=
  currency_to_euro_cents amount eur_price STELLAR_DECIMALS

/-- `util.conversion.bul_to_euro_cents`. -/
def bul_to_euro_cents (amount : Nat) (eur_price : List Char) : Except PyErr Nat :=
  currency_to_euro_cents amount eur_price STELLAR_DECIMALS

/-- `util.conversion.euro_cents_to_xlm_stroops(euro_cents_amount, xlm_price)`:
floor division of the fictitious euro-cent amount by the fictitious price,
`ZeroDivisionError` when the fictitious price is zero. -/
def euro_cents_to_xlm_stroops (euro_cents_amount : PyVal) (xlm_price : List Char) :
    Except PyErr Nat :=
  (divisible_to_indivisible euro_cents_amount
      (STELLAR_DECIMALS + priceDecimals xlm_price)).bind
    fun fictitious_units_amount =>
      (divisible_to_indivisible (.vstr xlm_price) (priceDecimals xlm_price + 2)).bind
        fun fictitious_units_price =>
          if fictitious_units_price = 0 then .error .zeroDivisionError
          else .ok (fictitious_units_amount / fictitious_units_price)

/-- `util.conversion.euro_cents_to_bul_stroops(euro_cents_amount, bul_price)`,
a verbatim duplicate of `euro_cents_to_xlm_stroops` in the source. -/
def euro_cents_to_bul_stroops (euro_cents_amount : PyVal) (bul_price : List Char) :
    Except PyErr Nat :=
  (divisible_to_indivisible euro_cents_amount
      (STELLAR_DECIMALS + priceDecimals bul_price)).bind
    fun fictitious_units_amount =>
      (divisible_to_indivisible (.vstr bul_price) (priceDecimals bul_price + 2)).bind
        fun fictitious_units_price =>
          if fictitious_units_price = 0 then .error .zeroDivisionError
          else .ok (fictitious_units_amount / fictitious_units_price)

end conversion

namespace stellar_units

/-- Number of decimals after the decimal point, from `util/stellar_units.py`. -/
def DEC : Nat := 7

/-- The string-building step of `stellar_units.stroops_to_units` applied to
the zero-left-padded amount string: prefix `"0."` when the padded string has
exactly `DEC` characters, otherwise insert the decimal point `DEC` characters
from the right (with Python slices).  No trailing zeros are stripped. -/
def unitsString (a : List Char) : List Char :=
  if a.length = DEC then '0' :: '.' :: a
  else pySliceToNeg a DEC ++ '.' :: pySliceFromNeg a DEC

/-- `util.stellar_units.stroops_to_units(amount)` with the default
`numeric_representation=False` (the string result; the `float` branch is a
separate representation switch that the compared behaviour does not use).
Only non-boolean integers are accepted; the amount is left-padded with zeros
to `DEC` characters and the decimal point is inserted, with no stripping of
trailing fractional zeros. -/
def stroops_to_units (amount : PyVal) : Except PyErr (List Char) :=
  match amount with
  | .vint n =>
    .ok (unitsString (List.replicate (DEC - (natToChars n).length) '0' ++ natToChars n))
  | _ => .error .typeError

end stellar_units

/-! Basic facts about digit characters. -/

lemma isDigitChar_elim {c : Char} (h : isDigitChar c = true) :
    c = '0' ∨ c = '1' ∨ c = '2' ∨ c = '3' ∨ c = '4' ∨ c = '5' ∨ c = '6' ∨ c = '7' ∨
      c = '8' ∨ c = '9' := by
  simp only [isDigitChar, Bool.or_eq_true, beq_iff_eq] at h
  tauto

lemma digitVal_lt_ten {c : Char} (h : isDigitChar c = true) : digitVal c < 10 := by
  rcases isDigitChar_elim h with rfl | rfl | rfl | rfl | rfl | rfl | rfl | rfl | rfl | rfl <;>
    decide

lemma digitChar_digitVal {c : Char} (h : isDigitChar c = true) :
    digitChar (digitVal c) = c := by
  rcases isDigitChar_elim h with rfl | rfl | rfl | rfl | rfl | rfl | rfl | rfl | rfl | rfl <;>
    decide

lemma ne_dot_of_digit {c : Char} (h : isDigitChar c = true) : c ≠ '.' := by
  rcases isDigitChar_elim h with rfl | rfl | rfl | rfl | rfl | rfl | rfl | rfl | rfl | rfl <;>
    decide

lemma digitVal_pos {c : Char} (h : isDigitChar c = true) (h0 : c ≠ '0') :
    1 ≤ digitVal c := by
  rcases isDigitChar_elim h with rfl | rfl | rfl | rfl | rfl | rfl | rfl | rfl | rfl | rfl
  · exact absurd rfl h0
  all_goals decide

lemma isDigitChar_digitChar : ∀ d, d < 10 → isDigitChar (digitChar d) = true := by decide

lemma digitVal_digitChar : ∀ d, d < 10 → digitVal (digitChar d) = d := by decide

/-! Facts about `charsToNat`. -/

lemma charsToNat_foldl (a : Nat) (s : List Char) :
    s.foldl (fun a c => 10 * a + digitVal c) a = a * 10 ^ s.length + charsToNat s := by
  induction s generalizing a with
  | nil => simp [charsToNat]
  | cons c t ih =>
    simp only [List.foldl_cons, charsToNat, List.length_cons, pow_succ]
    rw [ih (10 * a + digitVal c), ih (10 * 0 + digitVal c)]
    ring

lemma charsToNat_cons (c : Char) (t : List Char) :
    charsToNat (c :: t) = digitVal c * 10 ^ t.length + charsToNat t := by
  calc charsToNat (c :: t)
      = t.foldl (fun a c => 10 * a + digitVal c) (10 * 0 + digitVal c) := rfl
    _ = (10 * 0 + digitVal c) * 10 ^ t.length + charsToNat t := charsToNat_foldl _ t
    _ = digitVal c * 10 ^ t.length + charsToNat t := by ring

lemma charsToNat_append (A B : List Char) :
    charsToNat (A ++ B) = charsToNat A * 10 ^ B.length + charsToNat B := by
  calc charsToNat (A ++ B)
      = B.foldl (fun a c => 10 * a + digitVal c) (charsToNat A) := by
        simp [charsToNat, List.foldl_append]
    _ = charsToNat A * 10 ^ B.length + charsToNat B := charsToNat_foldl _ B

lemma charsToNat_concat (A : List Char) (c : Char) :
    charsToNat (A ++ [c]) = 10 * charsToNat A + digitVal c := by
  rw [charsToNat_append]
  simp [charsToNat]
  ring

lemma charsToNat_replicate_zero (k : Nat) : charsToNat (List.replicate k '0') = 0 := by
  induction k with
  | zero => rfl
  | succ n ih =>
    rw [List.replicate_succ, charsToNat_cons, ih]
    simp [show digitVal '0' = 0 from rfl]

lemma charsToNat_zeros_append (k : Nat) (S : List Char) :
    charsToNat (List.replicate k '0' ++ S) = charsToNat S := by
  rw [charsToNat_append, charsToNat_replicate_zero]
  ring

lemma charsToNat_append_zeros (S : List Char) (k : Nat) :
    charsToNat (S ++ List.replicate k '0') = charsToNat S * 10 ^ k := by
  rw [charsToNat_append, charsToNat_replicate_zero, List.length_replicate]
  ring

/-! Facts about `allDigits`. -/

lemma allDigits_iff {s : List Char} :
    allDigits s = true ↔ ∀ c ∈ s, isDigitChar c = true := by
  simp [allDigits, List.all_eq_true]

lemma allDigits_of_subset {s t : List Char} (h : ∀ c, c ∈ t → c ∈ s)
    (hs : allDigits s = true) : allDigits t = true := by
  rw [allDigits_iff] at *
  exact fun c hc => hs c (h c hc)

lemma not_dot_mem_of_allDigits {s : List Char} (h : allDigits s = true) : '.' ∉ s := by
  rw [allDigits_iff] at h
  intro hm
  exact ne_dot_of_digit (h _ hm) rfl

/-! Facts about `natToChars`. -/

lemma natToCharsLoop_zero (fuel : Nat) : natToCharsLoop fuel 0 = [] := by
  cases fuel <;> simp [natToCharsLoop]

lemma charsToNat_natToCharsLoop : ∀ fuel n, n ≤ fuel →
    charsToNat (natToCharsLoop fuel n) = n := by
  intro fuel
  induction fuel with
  | zero =>
    intro n h
    have : n = 0 := Nat.le_zero.mp h
    subst this
    rfl
  | succ f ih =>
    intro n h
    by_cases h0 : n = 0
    · subst h0
      rw [natToCharsLoop_zero]
      rfl
    · have hdiv : n / 10 ≤ f := by
        have := Nat.div_lt_self (Nat.pos_of_ne_zero h0) (by norm_num : (1 : Nat) < 10)
        omega
      rw [natToCharsLoop, if_neg h0, charsToNat_concat, ih (n / 10) hdiv,
        digitVal_digitChar (n % 10) (Nat.mod_lt n (by norm_num))]
      omega

lemma allDigits_natToCharsLoop : ∀ fuel n, allDigits (natToCharsLoop fuel n) = true := by
  intro fuel
  induction fuel with
  | zero => intro n; rfl
  | succ f ih =>
    intro n
    by_cases h0 : n = 0
    · subst h0
      rw [natToCharsLoop_zero]
      rfl
    · rw [natToCharsLoop, if_neg h0, allDigits_iff]
      intro c hc
      rcases List.mem_append.mp hc with hl | hr
      · exact allDigits_iff.mp (ih (n / 10)) c hl
      · rw [List.mem_singleton.mp hr]
        exact isDigitChar_digitChar _ (Nat.mod_lt _ (by norm_num))

lemma natToCharsLoop_ne_nil (fuel n : Nat) (h0 : n ≠ 0) (h : n ≤ fuel) :
    natToCharsLoop fuel n ≠ [] := by
  cases fuel with
  | zero => omega
  | succ f =>
    rw [natToCharsLoop, if_neg h0]
    simp

lemma charsToNat_natToChars (n : Nat) : charsToNat (natToChars n) = n := by
  by_cases h : n = 0
  · subst h
    rfl
  · rw [natToChars, if_neg h]
    exact charsToNat_natToCharsLoop n n le_rfl

lemma allDigits_natToChars (n : Nat) : allDigits (natToChars n) = true := by
  by_cases h : n = 0
  · subst h
    rfl
  · rw [natToChars, if_neg h]
    exact allDigits_natToCharsLoop n n

lemma natToChars_ne_nil (n : Nat) : natToChars n ≠ [] := by
  by_cases h : n = 0
  · subst h
    simp [natToChars]
  · rw [natToChars, if_neg h]
    exact natToCharsLoop_ne_nil n n h le_rfl

/-! Facts about `pySplit`. -/

lemma pySplit_ne_nil (sep : Char) : ∀ s, pySplit sep s ≠ [] := by
  intro s
  induction s with
  | nil => simp [pySplit]
  | cons c t ih =>
    by_cases hc : c = sep
    · simp [pySplit, hc]
    · rcases h : pySplit sep t with _ | ⟨p, ps⟩ <;> simp [pySplit, hc, h]

lemma pySplit_no_sep {sep : Char} : ∀ {s : List Char}, sep ∉ s → pySplit sep s = [s] := by
  intro s
  induction s with
  | nil => intro _; rfl
  | cons c t ih =>
    intro h
    have hc : ¬(c = sep) := fun e => h (e ▸ List.mem_cons_self c t)
    have ht : sep ∉ t := fun m => h (List.mem_cons_of_mem _ m)
    simp [pySplit, hc, ih ht]

lemma pySplit_append_sep {sep : Char} :
    ∀ {A : List Char} (B : List Char), sep ∉ A →
      pySplit sep (A ++ sep :: B) = A :: pySplit sep B := by
  intro A
  induction A with
  | nil => intro B _; simp [pySplit]
  | cons c t ih =>
    intro B h
    have hc : ¬(c = sep) := fun e => h (e ▸ List.mem_cons_self c t)
    have ht : sep ∉ t := fun m => h (List.mem_cons_of_mem _ m)
    simp [pySplit, hc, ih B ht]

lemma pySplit_two {sep : Char} {A B : List Char} (hA : sep ∉ A) (hB : sep ∉ B) :
    pySplit sep (A ++ sep :: B) = [A, B] := by
  rw [pySplit_append_sep B hA, pySplit_no_sep hB]

lemma pySplit_length_two_of_mem {sep : Char} :
    ∀ {s : List Char}, sep ∈ s → 2 ≤ (pySplit sep s).length := by
  intro s
  induction s with
  | nil => intro h; cases h
  | cons c t ih =>
    intro h
    by_cases hc : c = sep
    · subst hc
      have h1 : 1 ≤ (pySplit c t).length := List.length_pos.mpr (pySplit_ne_nil c t)
      rw [show pySplit c (c :: t) = [] :: pySplit c t from by simp [pySplit]]
      simp only [List.length_cons]
      omega
    · have ht : sep ∈ t := by
        rcases List.mem_cons.mp h with h' | h'
        · exact absurd h'.symm hc
        · exact h'
      have h2 := ih ht
      rcases hp : pySplit sep t with _ | ⟨p, ps⟩
      · exact absurd hp (pySplit_ne_nil sep t)
      · rw [hp] at h2
        simp only [pySplit, if_neg hc, hp, List.length_cons] at *
        omega

/-! Facts about `rstripZeros`, `stripOr0` and `padTo`. -/

lemma takeWhile_zero_eq_replicate (s : List Char) :
    s.takeWhile (fun c => c == '0')
      = List.replicate (s.takeWhile (fun c => c == '0')).length '0' := by
  rw [List.eq_replicate_iff]
  refine ⟨rfl, fun b hb => ?_⟩
  have h2 := List.mem_takeWhile_imp (p := fun c => c == '0') (l := s) hb
  exact eq_of_beq h2

lemma dropWhile_zero_value (s : List Char) :
    charsToNat (s.dropWhile (fun c => c == '0')) = charsToNat s := by
  conv_rhs => rw [← List.takeWhile_append_dropWhile (p := fun c => c == '0') (l := s)]
  rw [takeWhile_zero_eq_replicate, charsToNat_zeros_append]

lemma takeWhile_add_dropWhile_length (p : Char → Bool) (s : List Char) :
    (s.takeWhile p).length + (s.dropWhile p).length = s.length := by
  conv_rhs => rw [← List.takeWhile_append_dropWhile (p := p) (l := s)]
  rw [List.length_append]

lemma rstripZeros_decomp (s : List Char) :
    ∃ k, s = rstripZeros s ++ List.replicate k '0' := by
  refine ⟨(s.reverse.takeWhile (fun c => c == '0')).length, ?_⟩
  conv_lhs => rw [← List.reverse_reverse s,
    ← List.takeWhile_append_dropWhile (p := fun c => c == '0') (l := s.reverse),
    List.reverse_append, takeWhile_zero_eq_replicate s.reverse, List.reverse_replicate]
  rfl

lemma rstripZeros_nil_value {s : List Char} (h : rstripZeros s = []) :
    charsToNat s = 0 := by
  obtain ⟨k, hk⟩ := rstripZeros_decomp s
  rw [hk, h, List.nil_append, charsToNat_replicate_zero]

lemma rstripZeros_length_le (s : List Char) : (rstripZeros s).length ≤ s.length := by
  obtain ⟨k, hk⟩ := rstripZeros_decomp s
  conv_rhs => rw [hk]
  simp [List.length_append]

lemma mem_of_mem_rstripZeros {s : List Char} : ∀ c ∈ rstripZeros s, c ∈ s := by
  intro c hc
  rw [rstripZeros, List.mem_reverse] at hc
  have := (List.dropWhile_sublist (l := s.reverse) (p := fun c => c == '0')).subset hc
  rwa [List.mem_reverse] at this

lemma allDigits_stripOr0 {s : List Char} (h : allDigits s = true) :
    allDigits (stripOr0 s) = true := by
  by_cases he : rstripZeros s = []
  · simp [stripOr0, he]
    rfl
  · rw [show stripOr0 s = rstripZeros s from by simp [stripOr0, he]]
    exact allDigits_of_subset (fun c hc => mem_of_mem_rstripZeros c hc) h

lemma stripOr0_length_le {s : List Char} {d : Nat} (hs : s.length ≤ d) (hd : 1 ≤ d) :
    (stripOr0 s).length ≤ d := by
  by_cases he : rstripZeros s = []
  · simp [stripOr0, he]
    omega
  · rw [show stripOr0 s = rstripZeros s from by simp [stripOr0, he]]
    exact le_trans (rstripZeros_length_le s) hs

lemma padTo_stripOr0_value (T : List Char) (d : Nat) (hT : T.length = d) (hd : 1 ≤ d) :
    charsToNat (padTo (stripOr0 T) d) = charsToNat T := by
  by_cases he : rstripZeros T = []
  · rw [rstripZeros_nil_value he,
      show stripOr0 T = ['0'] from by simp [stripOr0, he]]
    calc charsToNat (padTo ['0'] d)
        = charsToNat ('0' :: List.replicate (d - 1) '0') := by simp [padTo]
      _ = charsToNat (List.replicate (d - 1 + 1) '0') := by rw [List.replicate_succ]
      _ = 0 := charsToNat_replicate_zero _
  · obtain ⟨k, hk⟩ := rstripZeros_decomp T
    have hlen : (rstripZeros T).length + k = d := by
      have := congrArg List.length hk
      simp only [List.length_append, List.length_replicate] at this
      omega
    have hpad : padTo (stripOr0 T) d = T := by
      rw [show stripOr0 T = rstripZeros T from by simp [stripOr0, he], padTo,
        show d - (rstripZeros T).length = k from by omega]
      exact hk.symm
    rw [hpad]

lemma padTo_length {f : List Char} {d : Nat} (h : f.length ≤ d) :
    (padTo f d).length = d := by
  rw [padTo, List.length_append, List.length_replicate]
  omega

lemma allDigits_append {A B : List Char} (hA : allDigits A = true)
    (hB : allDigits B = true) : allDigits (A ++ B) = true := by
  rw [allDigits_iff] at *
  intro c hc
  rcases List.mem_append.mp hc with h | h
  · exact hA c h
  · exact hB c h

lemma allDigits_replicate_zero (k : Nat) : allDigits (List.replicate k '0') = true := by
  rw [allDigits_iff]
  intro c hc
  rw [(List.eq_of_mem_replicate hc : c = '0')]
  rfl

lemma allDigits_padTo {f : List Char} {d : Nat} (h : allDigits f = true) :
    allDigits (padTo f d) = true :=
  allDigits_append h (allDigits_replicate_zero _)

lemma allDigits_take {s : List Char} (n : Nat) (h : allDigits s = true) :
    allDigits (s.take n) = true :=
  allDigits_of_subset (fun _ hc => List.take_subset n s hc) h

lemma allDigits_drop {s : List Char} (n : Nat) (h : allDigits s = true) :
    allDigits (s.drop n) = true :=
  allDigits_of_subset (fun _ hc => List.drop_subset n s hc) h

lemma allDigits_dropWhile_zero {s : List Char} (h : allDigits s = true) :
    allDigits (s.dropWhile (fun c => c == '0')) = true :=
  allDigits_of_subset
    (fun _ hc => (List.dropWhile_sublist (p := fun c => c == '0')).subset hc) h

/-! Evaluation lemmas for the embedded Python functions. -/

lemma pyInt_err {s : List Char} {e : PyErr} (h : pyInt s = .error e) :
    e = .valueError := by
  unfold pyInt at h
  split at h
  · cases h
  · exact (Except.error.inj h).symm

lemma pyIntOr0_guard {s : List Char} (h : allDigits s = true) :
    pyIntOr0 s = .ok (charsToNat s) := by
  by_cases hs : s = []
  · subst hs
    decide
  · rw [pyIntOr0, if_neg hs, pyInt, if_pos ⟨hs, h⟩]

lemma pyIntOr0_err {s : List Char} {e : PyErr} (h : pyIntOr0 s = .error e) :
    e = .valueError := by
  rw [pyIntOr0] at h
  exact pyInt_err h

namespace conversion

lemma d2iBuild_value (I F : List Char) (d : Nat) (hI : allDigits I = true)
    (hF : allDigits F = true) :
    d2iBuild I F d = .ok (charsToNat (I ++ padTo F d)) := by
  rw [d2iBuild]
  by_cases hI0 : I = ['0']
  · rw [if_neg (fun h => h hI0)]
    have hstr : allDigits (F.dropWhile (fun c => c == '0')
        ++ List.replicate (d - (F.length - (F.dropWhile (fun c => c == '0')).length)
          - (F.dropWhile (fun c => c == '0')).length) '0') = true :=
      allDigits_append (allDigits_dropWhile_zero hF) (allDigits_replicate_zero _)
    rw [pyIntOr0_guard hstr]
    congr 1
    have hle : (F.dropWhile (fun c => c == '0')).length ≤ F.length :=
      (List.dropWhile_sublist _).length_le
    have hexp : d - (F.length - (F.dropWhile (fun c => c == '0')).length)
        - (F.dropWhile (fun c => c == '0')).length = d - F.length := by omega
    rw [hexp, charsToNat_append_zeros, dropWhile_zero_value, hI0, padTo]
    rw [charsToNat_append, charsToNat_append, charsToNat_replicate_zero,
      List.length_append, List.length_replicate]
    rw [show charsToNat ['0'] = 0 from rfl]
    ring
  · rw [if_pos hI0]
    exact pyIntOr0_guard (allDigits_append hI (allDigits_padTo hF))

lemma d2iBuild_err {I F : List Char} {d : Nat} {e : PyErr}
    (h : d2iBuild I F d = .error e) : e = .valueError := by
  rw [d2iBuild] at h
  exact pyIntOr0_err h

lemma d2iCore_dot (I F : List Char) (d : Nat) (hI : allDigits I = true)
    (hF : allDigits F = true) :
    d2iCore (I ++ '.' :: F) d = .ok (charsToNat (I ++ padTo (F.take d) d)) := by
  have hdot : ('.' : Char) ∈ I ++ '.' :: F :=
    List.mem_append.mpr (Or.inr (List.mem_cons_self _ _))
  rw [d2iCore, if_pos hdot,
    pySplit_two (not_dot_mem_of_allDigits hI) (not_dot_mem_of_allDigits hF)]
  exact d2iBuild_value I (F.take d) d hI (allDigits_take d hF)

lemma d2iCore_nodot (I : List Char) (d : Nat) (hI : allDigits I = true) :
    d2iCore I d = .ok (charsToNat I * 10 ^ d) := by
  rw [d2iCore, if_neg (not_dot_mem_of_allDigits hI),
    d2iBuild_value I (List.replicate d '0') d hI (allDigits_replicate_zero d)]
  congr 1
  rw [padTo, List.length_replicate, Nat.sub_self, List.replicate_zero, List.append_nil,
    charsToNat_append_zeros]

lemma d2iCore_err {s : List Char} {d : Nat} {e : PyErr} (h : d2iCore s d = .error e) :
    e = .valueError := by
  rw [d2iCore] at h
  split at h
  · split at h
    · exact d2iBuild_err h
    · exact (Except.error.inj h).symm
  · exact d2iBuild_err h

lemma d2i_vint (n d : Nat) :
    divisible_to_indivisible (.vint n) d = .ok (n * 10 ^ d) := by
  show d2iCore (natToChars n) d = _
  rw [d2iCore_nodot _ _ (allDigits_natToChars n), charsToNat_natToChars]

lemma i2dCore_gt (s : List Char) (d : Nat) (hdot : '.' ∉ s) (hl : d < s.length) :
    i2dCore s d = .ok (pySliceToNeg s d ++ '.' :: stripOr0 (pySliceFromNeg s d)) := by
  have hA : ('.' : Char) ∉ pySliceToNeg s d := by
    intro hm
    rw [pySliceToNeg] at hm
    split at hm
    · cases hm
    · exact hdot (List.take_subset _ s hm)
  have hB : ('.' : Char) ∉ pySliceFromNeg s d := by
    intro hm
    rw [pySliceFromNeg] at hm
    split at hm
    · exact hdot hm
    · exact hdot (List.drop_subset _ s hm)
  rw [i2dCore, if_pos hl, pySplit_two hA hB]

lemma i2dCore_le (s : List Char) (d : Nat) (hdot : '.' ∉ s) (hl : s.length ≤ d) :
    i2dCore s d
      = .ok (['0'] ++ '.' :: stripOr0 (List.replicate (d - s.length) '0' ++ s)) := by
  have hB : ('.' : Char) ∉ List.replicate (d - s.length) '0' ++ s := by
    intro hm
    rcases List.mem_append.mp hm with h | h
    · cases List.eq_of_mem_replicate h
    · exact hdot h
  have hA : ('.' : Char) ∉ (['0'] : List Char) := by decide
  rw [i2dCore, if_neg (not_lt.mpr hl),
    show ('0' :: '.' :: (List.replicate (d - s.length) '0' ++ s))
      = ['0'] ++ '.' :: (List.replicate (d - s.length) '0' ++ s) from rfl,
    pySplit_two hA hB]

lemma i2d_vint_ok (n d : Nat) :
    ∃ r, indivisible_to_divisible (.vint n) d = .ok r := by
  show ∃ r, i2dCore (natToChars n) d = .ok r
  have hdot := not_dot_mem_of_allDigits (allDigits_natToChars n)
  rcases lt_or_ge d (natToChars n).length with h | h
  · exact ⟨_, i2dCore_gt _ _ hdot h⟩
  · exact ⟨_, i2dCore_le _ _ hdot h⟩

end conversion

lemma pyRoundFloat_err {s : List Char} {e : PyErr} (h : pyRoundFloat s = .error e) :
    e = .valueError := by
  rw [pyRoundFloat] at h
  split at h
  · split at h
    · cases h
    · exact (Except.error.inj h).symm
  · split at h
    · cases h
    · exact (Except.error.inj h).symm
  · exact (Except.error.inj h).symm

/-! The decimal printer is a right inverse of the decimal reader on canonical
digit strings (non-empty, no leading zero). -/

lemma charsToNat_pos {c : Char} (t : List Char) (hc : isDigitChar c = true)
    (h0 : c ≠ '0') : 0 < charsToNat (c :: t) := by
  rw [charsToNat_cons]
  have h1 := digitVal_pos hc h0
  have h2 : 1 ≤ 10 ^ t.length := Nat.one_le_pow _ _ (by norm_num)
  have := Nat.mul_le_mul h1 h2
  omega

lemma natToCharsLoop_inv :
    ∀ (s : List Char), allDigits s = true → (s = [] ∨ s.head? ≠ some '0') →
      ∀ fuel, charsToNat s ≤ fuel → natToCharsLoop fuel (charsToNat s) = s := by
  intro s
  induction s using List.reverseRecOn with
  | nil => intro _ _ fuel _; exact natToCharsLoop_zero fuel
  | append_singleton A c ih =>
    intro hd hh fuel hfuel
    have hc : isDigitChar c = true := allDigits_iff.mp hd c (by simp)
    have hA : allDigits A = true :=
      allDigits_of_subset (fun x hx => List.mem_append.mpr (Or.inl hx)) hd
    have hcv : digitVal c < 10 := digitVal_lt_ten hc
    have hval : charsToNat (A ++ [c]) = 10 * charsToNat A + digitVal c :=
      charsToNat_concat A c
    have hpos : 1 ≤ 10 * charsToNat A + digitVal c := by
      rcases A with _ | ⟨a, t⟩
      · have hne : ((([] : List Char) ++ [c]).head? ≠ some '0') :=
          hh.resolve_left (by simp)
        simp only [List.nil_append, List.head?_cons, ne_eq, Option.some.injEq] at hne
        have := digitVal_pos hc hne
        omega
      · have hne : (((a :: t) ++ [c]).head? ≠ some '0') := hh.resolve_left (by simp)
        simp only [List.cons_append, List.head?_cons, ne_eq, Option.some.injEq] at hne
        have ha : isDigitChar a = true := allDigits_iff.mp hd a (by simp)
        have := charsToNat_pos (t ++ [c]) ha hne
        rw [show a :: (t ++ [c]) = (a :: t) ++ [c] from rfl, hval] at this
        omega
    obtain ⟨f, rfl⟩ : ∃ f, fuel = f + 1 := ⟨fuel - 1, by omega⟩
    rw [hval, natToCharsLoop, if_neg (by omega)]
    have hdiv : (10 * charsToNat A + digitVal c) / 10 = charsToNat A := by omega
    have hmod : (10 * charsToNat A + digitVal c) % 10 = digitVal c := by omega
    rw [hdiv, hmod, digitChar_digitVal hc]
    have hh2 : A = [] ∨ A.head? ≠ some '0' := by
      rcases A with _ | ⟨a, t⟩
      · exact Or.inl rfl
      · refine Or.inr ?_
        have hne : (((a :: t) ++ [c]).head? ≠ some '0') := hh.resolve_left (by simp)
        simpa using hne
    have hf : charsToNat A ≤ f := by omega
    rw [ih hA hh2 f hf]

lemma natToChars_inv (s : List Char) (hd : allDigits s = true) (hne : s ≠ [])
    (hh : s.head? ≠ some '0') : natToChars (charsToNat s) = s := by
  have hpos : 0 < charsToNat s := by
    rcases s with _ | ⟨a, t⟩
    · exact absurd rfl hne
    · exact charsToNat_pos t (allDigits_iff.mp hd a (by simp)) (by simpa using hh)
  rw [natToChars, if_neg (by omega)]
  exact natToCharsLoop_inv s hd (Or.inr hh) _ le_rfl

lemma natToChars_lit (s : List Char) (n : Nat) (hval : charsToNat s = n)
    (hd : allDigits s = true) (hne : s ≠ []) (hh : s.head? ≠ some '0') :
    natToChars n = s :=
  hval ▸ natToChars_inv s hd hne hh

/-! Heads and last elements after stripping. -/

lemma dropWhile_head_not (p : Char → Bool) :
    ∀ (l : List Char) (c : Char), (l.dropWhile p).head? = some c → p c = false := by
  intro l
  induction l with
  | nil => intro c h; simp [List.dropWhile] at h
  | cons a t ih =>
    intro c h
    by_cases hp : p a = true
    · rw [List.dropWhile_cons_of_pos hp] at h
      exact ih c h
    · rw [List.dropWhile_cons_of_neg hp] at h
      obtain rfl : a = c := by simpa using h
      simpa using hp

lemma rstripZeros_getLast {s : List Char} (hne : rstripZeros s ≠ []) :
    (rstripZeros s).getLast? ≠ some '0' := by
  intro h
  rw [rstripZeros, List.getLast?_reverse] at h
  have := dropWhile_head_not (fun c => c == '0') s.reverse '0' h
  simp at this

lemma stripOr0_of_nil {X : List Char} (he : rstripZeros X = []) :
    stripOr0 X = ['0'] := by
  simp [stripOr0, he]

lemma stripOr0_of_ne_nil {X : List Char} (he : rstripZeros X ≠ []) :
    stripOr0 X = rstripZeros X := by
  simp [stripOr0, he]

lemma mem_stripOr0 {X : List Char} {c : Char} (h : c ∈ stripOr0 X) :
    c = '0' ∨ c ∈ X := by
  by_cases he : rstripZeros X = []
  · left
    rw [show stripOr0 X = ['0'] from by simp [stripOr0, he]] at h
    simpa using h
  · right
    rw [show stripOr0 X = rstripZeros X from by simp [stripOr0, he]] at h
    exact mem_of_mem_rstripZeros c h

/-- Modelled from the spec (section 4.1, `indivisible_to_divisible` and claim
C3's wording): insert a decimal point `decimals` digits from the right of the
zero-padded amount string — left-padding with zeros when the amount has fewer
digits than `decimals`, so that one integer digit remains — then strip
trailing zeros from the fractional part, replacing an emptied fractional part
with a single `"0"`. -/
def spec_insert_decimal_point (s : List Char) (d : Nat) : List Char :=
  (List.replicate (d + 1 - s.length) '0' ++ s).take
      ((List.replicate (d + 1 - s.length) '0' ++ s).length - d)
    ++ '.' :: stripOr0 ((List.replicate (d + 1 - s.length) '0' ++ s).drop
      ((List.replicate (d + 1 - s.length) '0' ++ s).length - d))

lemma i2dCore_eq_spec (s : List Char) (d : Nat) (hd : 1 ≤ d) (hdot : '.' ∉ s) :
    conversion.i2dCore s d = .ok (spec_insert_decimal_point s d) := by
  rcases lt_or_ge d s.length with hgt | hle
  · rw [conversion.i2dCore_gt s d hdot hgt, spec_insert_decimal_point]
    have hpad : List.replicate (d + 1 - s.length) '0' ++ s = s := by
      rw [show d + 1 - s.length = 0 from by omega, List.replicate_zero, List.nil_append]
    rw [hpad, pySliceToNeg, if_neg (by omega), pySliceFromNeg, if_neg (by omega)]
  · rw [conversion.i2dCore_le s d hdot hle, spec_insert_decimal_point]
    have hlen : (List.replicate (d + 1 - s.length) '0' ++ s).length = d + 1 := by
      rw [List.length_append, List.length_replicate]
      omega
    rw [hlen, show d + 1 - d = 1 from by omega]
    have hpadded : List.replicate (d + 1 - s.length) '0' ++ s
        = '0' :: (List.replicate (d - s.length) '0' ++ s) := by
      rw [show d + 1 - s.length = (d - s.length) + 1 from by omega, List.replicate_succ]
      rfl
    rw [hpadded]
    rfl

/-- Claim C1 (amended): for every non-negative integer `a` and every
`d ≥ 1`, `divisible_to_indivisible(indivisible_to_divisible(a, d), d) = a`:
the divisible/indivisible conversions round-trip losslessly.  (For `d = 0`
the round trip fails on every positive `a`; see the counterexample.) -/
theorem c1_roundtrip (a d : Nat) (h : 1 ≤ d) :
    (conversion.indivisible_to_divisible (.vint a) d).bind
      (fun s => conversion.divisible_to_indivisible (.vstr s) d) = .ok a := by
  have hS : allDigits (natToChars a) = true := allDigits_natToChars a
  have hdot : '.' ∉ natToChars a := not_dot_mem_of_allDigits hS
  rcases lt_or_ge d (natToChars a).length with hgt | hle
  · have h1 : conversion.indivisible_to_divisible (.vint a) d
        = .ok (pySliceToNeg (natToChars a) d
            ++ '.' :: stripOr0 (pySliceFromNeg (natToChars a) d)) := by
      show conversion.i2dCore (natToChars a) d = _
      exact conversion.i2dCore_gt _ _ hdot hgt
    rw [h1]
    show conversion.d2iCore _ d = .ok a
    rw [pySliceToNeg, if_neg (by omega), pySliceFromNeg, if_neg (by omega)]
    set H := (natToChars a).take ((natToChars a).length - d) with hH
    set T := (natToChars a).drop ((natToChars a).length - d) with hT
    have hHd : allDigits H = true := allDigits_take _ hS
    have hTd : allDigits T = true := allDigits_drop _ hS
    have hTlen : T.length = d := by
      rw [hT, List.length_drop]
      omega
    have hF : allDigits (stripOr0 T) = true := allDigits_stripOr0 hTd
    rw [conversion.d2iCore_dot H (stripOr0 T) d hHd hF]
    have htake : (stripOr0 T).take d = stripOr0 T :=
      List.take_of_length_le (stripOr0_length_le (le_of_eq hTlen) h)
    rw [htake]
    congr 1
    rw [charsToNat_append, padTo_length (stripOr0_length_le (le_of_eq hTlen) h),
      padTo_stripOr0_value T d hTlen h, ← hTlen, ← charsToNat_append, hH, hT,
      List.take_append_drop, charsToNat_natToChars]
  · have h1 : conversion.indivisible_to_divisible (.vint a) d
        = .ok (['0'] ++ '.' :: stripOr0
            (List.replicate (d - (natToChars a).length) '0' ++ natToChars a)) := by
      show conversion.i2dCore (natToChars a) d = _
      exact conversion.i2dCore_le _ _ hdot hle
    rw [h1]
    show conversion.d2iCore (['0'] ++ '.' :: stripOr0
      (List.replicate (d - (natToChars a).length) '0' ++ natToChars a)) d = .ok a
    set T := List.replicate (d - (natToChars a).length) '0' ++ natToChars a with hT
    have hTd : allDigits T = true := allDigits_append (allDigits_replicate_zero _) hS
    have hTlen : T.length = d := by
      rw [hT, List.length_append, List.length_replicate]
      omega
    have hF : allDigits (stripOr0 T) = true := allDigits_stripOr0 hTd
    rw [conversion.d2iCore_dot ['0'] (stripOr0 T) d (by decide) hF]
    have htake : (stripOr0 T).take d = stripOr0 T :=
      List.take_of_length_le (stripOr0_length_le (le_of_eq hTlen) h)
    rw [htake]
    congr 1
    rw [charsToNat_append, padTo_stripOr0_value T d hTlen h, hT,
      charsToNat_zeros_append, charsToNat_natToChars,
      show charsToNat ['0'] = 0 from rfl]
    ring

/-- Witness for C1's amended round trip at `a = 123`, `d = 2`. -/
theorem c1_roundtrip_witness :
    1 ≤ 2 ∧ (conversion.indivisible_to_divisible (.vint 123) 2).bind
      (fun s => conversion.divisible_to_indivisible (.vstr s) 2) = .ok 123 :=
  ⟨by decide, c1_roundtrip 123 2 (by decide)⟩

/-- Counterexample to C1 as stated: at `a = 1`, `d = 0` the round trip
returns `0`, not `1` (because `indivisible_to_divisible(1, 0)` produces the
string `".1"` whose integer part is empty, which the inverse conversion turns
into `0`). -/
theorem c1_counterexample :
    (conversion.indivisible_to_divisible (.vint 1) 0).bind
        (fun s => conversion.divisible_to_indivisible (.vstr s) 0) ≠ .ok 1 ∧
      (conversion.indivisible_to_divisible (.vint 1) 0).bind
        (fun s => conversion.divisible_to_indivisible (.vstr s) 0) = .ok 0 := by
  constructor <;> decide

/-- Claim C2: on a string amount denoting a non-negative decimal number,
`divisible_to_indivisible` returns the integer given by truncating the
fractional part to at most `decimals` digits, right-padding it with zeros to
exactly `decimals` digits and concatenating it after the integer part; with
no fractional part, `decimals` zero digits are appended; and `"0"` maps to
`0` for every `decimals` (the integer-part-`"0"` branch strips the leading
zeros of the fractional part and appends trailing zeros so that stripped
leading zeros, kept digits and trailing zeros together span the `decimals`
positions, which leaves the concatenation's integer value unchanged). -/
theorem c2_truncate_pad_concat (d : Nat) :
    (∀ I F : List Char, allDigits I = true → allDigits F = true →
      conversion.divisible_to_indivisible (.vstr (I ++ '.' :: F)) d
        = .ok (charsToNat (I ++ padTo (F.take d) d))) ∧
    (∀ I : List Char, allDigits I = true →
      conversion.divisible_to_indivisible (.vstr I) d
        = .ok (charsToNat (I ++ List.replicate d '0'))) ∧
    conversion.divisible_to_indivisible (.vstr ['0']) d = .ok 0 := by
  refine ⟨fun I F hI hF => ?_, fun I hI => ?_, ?_⟩
  · exact conversion.d2iCore_dot I F d hI hF
  · show conversion.d2iCore I d = _
    rw [conversion.d2iCore_nodot I d hI, charsToNat_append_zeros]
  · show conversion.d2iCore ['0'] d = _
    rw [conversion.d2iCore_nodot ['0'] d (by decide),
      show charsToNat ['0'] = 0 from rfl]
    simp

/-- Witness for C2 at the string `"12.345"` with `decimals = 2`. -/
theorem c2_witness :
    conversion.divisible_to_indivisible
        (.vstr ((("12").toList) ++ '.' :: (("345").toList))) 2
      = .ok (charsToNat ((("12").toList) ++ padTo ((("345").toList).take 2) 2)) :=
  (c2_truncate_pad_concat 2).1 (("12").toList) (("345").toList) (by decide) (by decide)

/-- Claim C3 (amended): for every `decimals ≥ 1` and every input denoting a
non-negative integer (an integer, or an all-digit string),
`indivisible_to_divisible` returns the string obtained by inserting a decimal
point `decimals` digits from the right of the zero-padded amount string
(left-padding with zeros when the amount has fewer digits than `decimals`),
then stripping trailing zeros from the fractional part and replacing an
emptied fractional part with `"0"`; the result contains exactly one decimal
point and no unnecessary trailing zeros, and
`indivisible_to_divisible(10000000, 7) = "1.0"`,
`indivisible_to_divisible(1, 7) = "0.0000001"`.  (For `decimals = 0` the
description fails: the code then produces a string with an empty integer
part, see the counterexample.) -/
theorem c3_insert_point :
    (∀ d, 1 ≤ d → ∀ n : Nat,
      conversion.indivisible_to_divisible (.vint n) d
        = .ok (spec_insert_decimal_point (natToChars n) d)) ∧
    (∀ d, 1 ≤ d → ∀ s : List Char, allDigits s = true →
      conversion.indivisible_to_divisible (.vstr s) d
        = .ok (spec_insert_decimal_point s d)) ∧
    (∀ (s : List Char) (d : Nat), '.' ∉ s →
      (spec_insert_decimal_point s d).count '.' = 1 ∧
      ∃ H T, spec_insert_decimal_point s d = H ++ '.' :: T ∧ '.' ∉ H ∧
        (T = ['0'] ∨ T.getLast? ≠ some '0')) ∧
    conversion.indivisible_to_divisible (.vint 10000000) 7 = .ok (("1.0").toList) ∧
    conversion.indivisible_to_divisible (.vint 1) 7 = .ok (("0.0000001").toList) := by
  refine ⟨fun d hd n => ?_, fun d hd s hs => ?_, fun s d hdot => ?_, ?_, ?_⟩
  · show conversion.i2dCore (natToChars n) d = _
    exact i2dCore_eq_spec _ _ hd (not_dot_mem_of_allDigits (allDigits_natToChars n))
  · show conversion.i2dCore s d = _
    exact i2dCore_eq_spec _ _ hd (not_dot_mem_of_allDigits hs)
  · have hpd : '.' ∉ List.replicate (d + 1 - s.length) '0' ++ s := by
      intro hm
      rcases List.mem_append.mp hm with hm | hm
      · cases List.eq_of_mem_replicate hm
      · exact hdot hm
    have hA : '.' ∉ (List.replicate (d + 1 - s.length) '0' ++ s).take
        ((List.replicate (d + 1 - s.length) '0' ++ s).length - d) :=
      fun hm => hpd (List.take_subset _ _ hm)
    have hB : '.' ∉ stripOr0 ((List.replicate (d + 1 - s.length) '0' ++ s).drop
        ((List.replicate (d + 1 - s.length) '0' ++ s).length - d)) := by
      intro hm
      rcases mem_stripOr0 hm with h0 | hm2
      · cases h0
      · exact hpd (List.drop_subset _ _ hm2)
    constructor
    · rw [spec_insert_decimal_point, List.count_append,
        List.count_eq_zero_of_not_mem hA, List.count_cons_self,
        List.count_eq_zero_of_not_mem hB]
    · refine ⟨_, _, rfl, hA, ?_⟩
      by_cases he : rstripZeros ((List.replicate (d + 1 - s.length) '0' ++ s).drop
          ((List.replicate (d + 1 - s.length) '0' ++ s).length - d)) = []
      · left
        exact stripOr0_of_nil he
      · right
        rw [stripOr0_of_ne_nil he]
        exact rstripZeros_getLast he
  · have hnat : natToChars 10000000 = ("10000000").toList :=
      natToChars_lit _ _ (by decide) (by decide) (by decide) (by decide)
    show conversion.i2dCore (natToChars 10000000) 7 = .ok (("1.0").toList)
    rw [hnat]
    decide
  · decide

/-- Witness for C3's amended description at `n = 5`, `d = 2`. -/
theorem c3_insert_point_witness :
    conversion.indivisible_to_divisible (.vint 5) 2
      = .ok (spec_insert_decimal_point (natToChars 5) 2) :=
  c3_insert_point.1 2 (by decide) 5

/-- Counterexample to C3 as stated: at amount `5` and `decimals = 0` the code
returns the string `".5"` (Python `s[:-0]` is empty, so the integer part is
lost), while the claimed description — insert the point zero digits from the
right, strip the then-empty fractional part to `"0"` — yields `"5.0"`. -/
theorem c3_counterexample :
    conversion.indivisible_to_divisible (.vint 5) 0 = .ok (['.', '5']) ∧
    spec_insert_decimal_point (natToChars 5) 0 = ("5.0").toList ∧
    (['.', '5'] : List Char) ≠ ("5.0").toList := by
  refine ⟨by decide, by decide, by decide⟩

/-! Step lemmas for `Except.bind` and error shapes of the remaining helpers. -/

lemma except_bind_ok {ε α β : Type} (a : α) (f : α → Except ε β) :
    (Except.ok a : Except ε α).bind f = f a := rfl

lemma except_bind_error {ε α β : Type} (e : ε) (f : α → Except ε β) :
    (Except.error e : Except ε α).bind f = .error e := rfl

lemma i2dCore_err {s : List Char} {d : Nat} {e : PyErr}
    (h : conversion.i2dCore s d = .error e) : e = .valueError := by
  rw [conversion.i2dCore] at h
  split at h
  · cases h
  · exact (Except.error.inj h).symm

/-- Unfolded form of `currency_to_euro_cents` on a price with exactly one
decimal point. -/
lemma currency_to_euro_cents_eq (amount d : Nat) (I F : List Char)
    (hI : '.' ∉ I) (hF : '.' ∉ F) :
    conversion.currency_to_euro_cents amount (I ++ '.' :: F) d
      = (conversion.divisible_to_indivisible (.vstr (I ++ '.' :: F)) F.length).bind
          (fun fictitious_units_price =>
            (conversion.indivisible_to_divisible
              (.vint (fictitious_units_price * amount)) (F.length + d - 2)).bind
              pyRoundFloat) := by
  rw [conversion.currency_to_euro_cents, pySplit_two hI hF]
  rfl

/-- Claim C4: `currency_to_euro_cents(amount, eur_price, decimals)` is the
composition `round(float(indivisible_to_divisible(divisible_to_indivisible(
eur_price, p) * amount, p + decimals - 2)))` where `p` is the number of
fractional digits of the price; the hypothesis `2 ≤ p + decimals` marks the
domain on which the truncated `Nat` subtraction agrees with Python's `- 2`. -/
theorem c4_pipeline (amount d : Nat) (I F : List Char) (hI : '.' ∉ I) (hF : '.' ∉ F)
    (h2 : 2 ≤ F.length + d) :
    conversion.currency_to_euro_cents amount (I ++ '.' :: F) d
      = (conversion.divisible_to_indivisible (.vstr (I ++ '.' :: F)) F.length).bind
          (fun fictitious_units_price =>
            (conversion.indivisible_to_divisible
              (.vint (fictitious_units_price * amount)) (F.length + d - 2)).bind
              pyRoundFloat) :=
  currency_to_euro_cents_eq amount d I F hI hF

/-- Witness for C4 at `amount = 3`, `eur_price = "1.5"`, `decimals = 1`. -/
theorem c4_pipeline_witness :
    conversion.currency_to_euro_cents 3 ((("1").toList) ++ '.' :: (("5").toList)) 1
      = (conversion.divisible_to_indivisible
            (.vstr ((("1").toList) ++ '.' :: (("5").toList))) ((("5").toList).length)).bind
          (fun fictitious_units_price =>
            (conversion.indivisible_to_divisible
              (.vint (fictitious_units_price * 3)) ((("5").toList).length + 1 - 2)).bind
              pyRoundFloat) :=
  c4_pipeline 3 1 (("1").toList) (("5").toList) (by decide) (by decide) (by decide)

/-- Shared computation: one bitcoin (`100000000` satoshi) at a price of
`"30000.00"` EUR per BTC converts to exactly `3000000` euro cents. -/
lemma btc_example_value :
    conversion.btc_to_euro_cents 100000000 (("30000.00").toList) = .ok 3000000 := by
  have hnat : natToChars 300000000000000 = ("300000000000000").toList :=
    natToChars_lit _ _ (by decide) (by decide) (by decide) (by decide)
  have hsplit : ("30000.00").toList = ("30000").toList ++ '.' :: ("00").toList := by decide
  show conversion.currency_to_euro_cents 100000000 (("30000.00").toList) 8 = .ok 3000000
  rw [hsplit, currency_to_euro_cents_eq 100000000 8 _ _ (by decide) (by decide),
    show conversion.divisible_to_indivisible
        (.vstr ((("30000").toList) ++ '.' :: (("00").toList))) ((("00").toList).length)
      = .ok 3000000 from by decide, except_bind_ok]
  show (conversion.indivisible_to_divisible (.vint (3000000 * 100000000)) 8).bind
      pyRoundFloat = .ok 3000000
  rw [show (3000000 * 100000000 : Nat) = 300000000000000 from by norm_num]
  show (conversion.i2dCore (natToChars 300000000000000) 8).bind pyRoundFloat = .ok 3000000
  rw [hnat]
  decide

/-- Counterexample to C5 as stated: `btc_to_euro_cents(100000000, "30000.00")`
returns `3000000` (thirty thousand euro in cents), not an integer within
rounding distance of `3000000000` — the claimed reference value is off by a
factor of one thousand. -/
theorem c5_counterexample :
    conversion.btc_to_euro_cents 100000000 (("30000.00").toList) ≠ .ok 3000000000 ∧
    conversion.btc_to_euro_cents 100000000 (("30000.00").toList) = .ok 3000000 ∧
    1 < 3000000000 - 3000000 := by
  refine ⟨?_, btc_example_value, by norm_num⟩
  rw [btc_example_value]
  decide

/-- Claim C5 (amended): `currency_to_euro_cents` with `amount = 100000000`
(one BTC in satoshi), `eur_price = "30000.00"` and `decimals = 8` — that is,
`btc_to_euro_cents(100000000, "30000.00")` — returns exactly `3000000` euro
cents (the sub-cent fractional part is zero here, so no rounding error at
all). -/
theorem c5_value :
    conversion.btc_to_euro_cents 100000000 (("30000.00").toList) = .ok 3000000 :=
  btc_example_value

/-- Claim C6: `currency_to_euro_cents` raises `IndexError` exactly on prices
without a decimal point: with no `'.'` in `eur_price` the unguarded
`split('.')[1]` fails, and with a `'.'` present no `IndexError` can arise
(the remaining steps only produce values or `ValueError`). -/
theorem c6_index_error (amount d : Nat) (price : List Char) :
    ('.' ∉ price → conversion.currency_to_euro_cents amount price d
        = .error .indexError) ∧
    ('.' ∈ price → conversion.currency_to_euro_cents amount price d
        ≠ .error .indexError) := by
  constructor
  · intro hdot
    rw [conversion.currency_to_euro_cents, pySplit_no_sep hdot]
    rfl
  · intro hdot
    obtain ⟨f, hf⟩ : ∃ f, (pySplit '.' price)[1]? = some f := by
      have hlen := pySplit_length_two_of_mem hdot
      rcases h : (pySplit '.' price)[1]? with _ | f
      · rw [List.getElem?_eq_none_iff] at h
        omega
      · exact ⟨f, rfl⟩
    rw [conversion.currency_to_euro_cents, hf]
    show (conversion.divisible_to_indivisible (.vstr price) f.length).bind
        (fun fictitious_units_price =>
          (conversion.indivisible_to_divisible
            (.vint (fictitious_units_price * amount)) (f.length + d - 2)).bind
            pyRoundFloat) ≠ .error .indexError
    rcases h1 : conversion.divisible_to_indivisible (.vstr price) f.length with e1 | v1
    · have h2 : conversion.d2iCore price f.length = .error e1 := h1
      rw [except_bind_error, conversion.d2iCore_err h2]
      decide
    · rw [except_bind_ok]
      obtain ⟨r, hr⟩ := conversion.i2d_vint_ok (v1 * amount) (f.length + d - 2)
      rw [hr, except_bind_ok]
      rcases h3 : pyRoundFloat r with e3 | v3
      · rw [pyRoundFloat_err h3]
        decide
      · exact fun hc => Except.noConfusion hc

/-- Witness for C6: a price without a decimal point raises `IndexError`, a
price with one does not. -/
theorem c6_index_error_witness :
    conversion.currency_to_euro_cents 1 (("30000").toList) 8 = .error .indexError ∧
    conversion.currency_to_euro_cents 1 (("30000.00").toList) 8
      ≠ .error .indexError :=
  ⟨(c6_index_error 1 8 (("30000").toList)).1 (by decide),
   (c6_index_error 1 8 (("30000.00").toList)).2 (by decide)⟩

/-- Claim C7: `euro_cents_to_xlm_stroops(euro_cents_amount, xlm_price)` is
the floor division of `divisible_to_indivisible(euro_cents_amount, 7 + p)` by
`divisible_to_indivisible(xlm_price, p + 2)`, with `p` the number of
fractional price digits defaulting to `0` when the price has no decimal
point; in particular a dotless price such as `"5"` does not raise. -/
theorem c7_floor_division :
    (∀ (e : Nat) (price : List Char) (u v : Nat),
      conversion.divisible_to_indivisible (.vint e)
          (conversion.STELLAR_DECIMALS + conversion.priceDecimals price) = .ok u →
      conversion.divisible_to_indivisible (.vstr price)
          (conversion.priceDecimals price + 2) = .ok v →
      v ≠ 0 →
      conversion.euro_cents_to_xlm_stroops (.vint e) price = .ok (u / v)) ∧
    conversion.euro_cents_to_xlm_stroops (.vint 100) (("5").toList) = .ok 2000000 := by
  constructor
  · intro e price u v hu hv hv0
    rw [conversion.euro_cents_to_xlm_stroops, hu, except_bind_ok, hv, except_bind_ok,
      if_neg hv0]
  · decide

/-- Witness for C7 at `euro_cents_amount = 3`, `xlm_price = "0.5"`. -/
theorem c7_floor_division_witness :
    conversion.euro_cents_to_xlm_stroops (.vint 3) (("0.5").toList)
      = .ok (300000000 / 500) :=
  c7_floor_division.1 3 (("0.5").toList) 300000000 500 (by decide) (by decide)
    (by decide)

/-- The Python type check of the two primitive conversions: strings and
non-boolean integers are accepted, everything else raises `TypeError`. -/
def acceptedType : PyVal → Bool
  | .vint _ => true
  | .vstr _ => true
  | .vbool _ => false
  | .vother => false

/-- Claim C8: `divisible_to_indivisible` and `indivisible_to_divisible` raise
`TypeError` exactly when the amount is neither a non-boolean integer nor a
string; in particular both booleans raise `TypeError` although Python
booleans are `int`-like. -/
theorem c8_type_error (v : PyVal) (d : Nat) :
    ((conversion.divisible_to_indivisible v d = .error .typeError)
        ↔ acceptedType v = false) ∧
    ((conversion.indivisible_to_divisible v d = .error .typeError)
        ↔ acceptedType v = false) ∧
    (∀ b, conversion.divisible_to_indivisible (.vbool b) d = .error .typeError ∧
          conversion.indivisible_to_divisible (.vbool b) d = .error .typeError) := by
  refine ⟨?_, ?_, fun b => ⟨rfl, rfl⟩⟩
  · cases v with
    | vint n =>
      constructor
      · intro h
        rw [conversion.d2i_vint] at h
        cases h
      · intro h
        simp [acceptedType] at h
    | vstr s =>
      constructor
      · intro h
        have h2 : conversion.d2iCore s d = .error .typeError := h
        exact absurd (conversion.d2iCore_err h2) (by decide)
      · intro h
        simp [acceptedType] at h
    | vbool b => exact ⟨fun _ => rfl, fun _ => rfl⟩
    | vother => exact ⟨fun _ => rfl, fun _ => rfl⟩
  · cases v with
    | vint n =>
      constructor
      · intro h
        obtain ⟨r, hr⟩ := conversion.i2d_vint_ok n d
        rw [hr] at h
        cases h
      · intro h
        simp [acceptedType] at h
    | vstr s =>
      constructor
      · intro h
        have h2 : conversion.i2dCore s d = .error .typeError := h
        exact absurd (i2dCore_err h2) (by decide)
      · intro h
        simp [acceptedType] at h
    | vbool b => exact ⟨fun _ => rfl, fun _ => rfl⟩
    | vother => exact ⟨fun _ => rfl, fun _ => rfl⟩

/-- Witness for C8: `True` raises `TypeError` in `divisible_to_indivisible`. -/
theorem c8_type_error_witness :
    conversion.divisible_to_indivisible (.vbool true) 5 = .error .typeError :=
  ((c8_type_error (.vbool true) 5).1).mpr rfl

/-! Zero-valued price strings and the unguarded division (C9). -/

lemma allDigits_of_all_zero {s : List Char} (h : ∀ c ∈ s, c = '0') :
    allDigits s = true := by
  rw [allDigits_iff]
  intro c hc
  rw [h c hc]
  rfl

lemma charsToNat_eq_zero_of_all_zero {s : List Char} (h : ∀ c ∈ s, c = '0') :
    charsToNat s = 0 := by
  have hs : s = List.replicate s.length '0' := by
    rw [List.eq_replicate_iff]
    exact ⟨rfl, h⟩
  rw [hs, charsToNat_replicate_zero]

lemma d2i_zero_dot {I F : List Char} (d : Nat) (hI : ∀ c ∈ I, c = '0')
    (hF : ∀ c ∈ F, c = '0') :
    conversion.divisible_to_indivisible (.vstr (I ++ '.' :: F)) d = .ok 0 := by
  show conversion.d2iCore _ _ = _
  rw [conversion.d2iCore_dot I F d (allDigits_of_all_zero hI) (allDigits_of_all_zero hF)]
  congr 1
  apply charsToNat_eq_zero_of_all_zero
  intro c hc
  rcases List.mem_append.mp hc with h | h
  · exact hI c h
  · rcases List.mem_append.mp h with h | h
    · exact hF c (List.take_subset _ _ h)
    · exact List.eq_of_mem_replicate h

lemma d2i_zero_nodot {I : List Char} (d : Nat) (hI : ∀ c ∈ I, c = '0') :
    conversion.divisible_to_indivisible (.vstr I) d = .ok 0 := by
  show conversion.d2iCore _ _ = _
  rw [conversion.d2iCore_nodot I d (allDigits_of_all_zero hI),
    charsToNat_eq_zero_of_all_zero hI]
  simp

lemma euro_xlm_zero_price (e : Nat) (price : List Char)
    (hp : conversion.divisible_to_indivisible (.vstr price)
      (conversion.priceDecimals price + 2) = .ok 0) :
    conversion.euro_cents_to_xlm_stroops (.vint e) price
      = .error .zeroDivisionError := by
  rw [conversion.euro_cents_to_xlm_stroops, conversion.d2i_vint, except_bind_ok, hp,
    except_bind_ok, if_pos rfl]

lemma euro_bul_zero_price (e : Nat) (price : List Char)
    (hp : conversion.divisible_to_indivisible (.vstr price)
      (conversion.priceDecimals price + 2) = .ok 0) :
    conversion.euro_cents_to_bul_stroops (.vint e) price
      = .error .zeroDivisionError := by
  rw [conversion.euro_cents_to_bul_stroops, conversion.d2i_vint, except_bind_ok, hp,
    except_bind_ok, if_pos rfl]

/-- Claim C9: for every euro-cent amount, `euro_cents_to_xlm_stroops` and
`euro_cents_to_bul_stroops` raise `ZeroDivisionError` whenever the price
string denotes zero (all digit characters `'0'`, with or without a decimal
point, e.g. `"0"` and `"0.0"`), since the floor division by the fictitious
integer price is unguarded. -/
theorem c9_zero_division (e : Nat) (I F : List Char)
    (hI : ∀ c ∈ I, c = '0') (hF : ∀ c ∈ F, c = '0') :
    (conversion.euro_cents_to_xlm_stroops (.vint e) (I ++ '.' :: F)
        = .error .zeroDivisionError ∧
      conversion.euro_cents_to_bul_stroops (.vint e) (I ++ '.' :: F)
        = .error .zeroDivisionError) ∧
    (I ≠ [] →
      conversion.euro_cents_to_xlm_stroops (.vint e) I = .error .zeroDivisionError ∧
      conversion.euro_cents_to_bul_stroops (.vint e) I = .error .zeroDivisionError) :=
  ⟨⟨euro_xlm_zero_price e _ (d2i_zero_dot _ hI hF),
    euro_bul_zero_price e _ (d2i_zero_dot _ hI hF)⟩,
   fun _ => ⟨euro_xlm_zero_price e _ (d2i_zero_nodot _ hI),
    euro_bul_zero_price e _ (d2i_zero_nodot _ hI)⟩⟩

/-- Witness for C9 at `euro_cents_amount = 5` and the zero prices `"0.0"` and
`"0"`. -/
theorem c9_zero_division_witness :
    conversion.euro_cents_to_xlm_stroops (.vint 5) ((['0'] : List Char) ++ '.' :: ['0'])
        = .error .zeroDivisionError ∧
      conversion.euro_cents_to_bul_stroops (.vint 5) ((['0'] : List Char) ++ '.' :: ['0'])
        = .error .zeroDivisionError ∧
      conversion.euro_cents_to_xlm_stroops (.vint 5) (['0'] : List Char)
        = .error .zeroDivisionError :=
  ⟨(c9_zero_division 5 ['0'] ['0'] (by decide) (by decide)).1.1,
   (c9_zero_division 5 ['0'] ['0'] (by decide) (by decide)).1.2,
   ((c9_zero_division 5 ['0'] ['0'] (by decide) (by decide)).2 (by decide)).1⟩

/-- Claim C10: `stellar_units.stroops_to_units` is not equivalent to
`conversion.stroops_to_units`: it never strips trailing fractional zeros
(`1000000000` stroops give `"100.0000000"` against `"100.0"`), and it raises
`TypeError` on every string input while `conversion.stroops_to_units` accepts
strings (for example `"5"`). -/
theorem c10_two_stroops_functions :
    stellar_units.stroops_to_units (.vint 1000000000) = .ok (("100.0000000").toList) ∧
    conversion.stroops_to_units (.vint 1000000000) = .ok (("100.0").toList) ∧
    (("100.0000000").toList ≠ ("100.0").toList) ∧
    (∀ s : List Char, stellar_units.stroops_to_units (.vstr s) = .error .typeError) ∧
    conversion.stroops_to_units (.vstr (("5").toList)) = .ok (("0.0000005").toList) := by
  have hnat : natToChars 1000000000 = ("1000000000").toList :=
    natToChars_lit _ _ (by decide) (by decide) (by decide) (by decide)
  refine ⟨?_, ?_, by decide, fun s => rfl, by decide⟩
  · show Except.ok (stellar_units.unitsString
        (List.replicate (stellar_units.DEC - (natToChars 1000000000).length) '0'
          ++ natToChars 1000000000)) = _
    rw [hnat]
    decide
  · show conversion.i2dCore (natToChars 1000000000) 7 = _
    rw [hnat]
    decide

end Paket
